import Mathlib

/-!
# FairSquare BI portal — verification of the normalization / analytics pipeline

A shallow embedding of the data pipeline in `app.py`:

* the upload-normalization block (required-column check, `pd.to_datetime` /
  `pd.to_numeric` coercion with `errors='coerce'`, `dropna`, emptiness check),
* the daily aggregation `df.groupby("date")["sales"].sum()` (group keys sorted
  ascending, one group per distinct key),
* the Sales Forecast length guard `if len(df) < 30`,
* the annuity payment formula of the Loan Forecaster,
* the A/B significance computation `stats.binomtest(variant, control+variant, 0.5)`.

Tables are modelled as a list of column names together with rows given as
association lists from column name to cell value.  A cell value is either an
already-parsed datetime, a number, a raw string, or a null (NaN/NaT).  Calendar
dates are represented by the order-preserving ordinal key `y*10000 + m*100 + d`.
-/

namespace FairSquare

/-- A cell value of a pandas dataframe: a parsed datetime, a numeric value,
a raw string, or a null (`NaN`/`NaT`). -/
inductive Value where
  | vDate (d : ℤ)
  | vNum (q : ℚ)
  | vStr (s : String)
  | vNull
  deriving DecidableEq, Repr

/-- A dataframe row: an association list from column name to cell value.
A column absent from the list behaves as a null cell. -/
abbrev Row : Type := List (String × Value)

/-- The cell of row `r` in column `c` (first binding wins; `vNull` if absent,
matching pandas' NaN for a missing value). -/
def Row.get : Row → String → Value
  | [], _ => Value.vNull
  | p :: r, c => if p.1 = c then p.2 else Row.get r c

/-- Whether row `r` carries a binding for column `c`. -/
def Row.hasCol : Row → String → Bool
  | [], _ => false
  | p :: r, c => p.1 = c || Row.hasCol r c

/-- Overwrite every binding of column `c` in row `r` with `v` (models assigning
a coerced column back into the dataframe; a no-op when the column is absent). -/
def Row.set : Row → String → Value → Row
  | [], _, _ => []
  | p :: r, c, v => (if p.1 = c then (c, v) else p) :: Row.set r c v

/-- A dataframe: its column names and its rows. -/
structure Table where
  cols : List String
  rows : List Row
  deriving DecidableEq

/-- Numeric value of a digit character. -/
def digitVal (c : Char) : ℕ := c.toNat - 48

/-- Value of a nonempty all-digit character list, most significant first. -/
def digitsVal (cs : List Char) : ℕ := cs.foldl (fun n c => 10 * n + digitVal c) 0

/-- Models `pd.to_datetime` on an ISO `YYYY-MM-DD` string: the parsed date as
the order-preserving ordinal `y*10000 + m*100 + d`, or `none` when the string
does not parse. -/
def parseDateISO (s : String) : Option ℤ :=
  match s.data with
  | [y1, y2, y3, y4, '-', m1, m2, '-', d1, d2] =>
    if ([y1, y2, y3, y4, m1, m2, d1, d2].all Char.isDigit) then
      let y := digitsVal [y1, y2, y3, y4]
      let m := digitsVal [m1, m2]
      let d := digitsVal [d1, d2]
      if 1 ≤ m ∧ m ≤ 12 ∧ 1 ≤ d ∧ d ≤ 31 then
        some ((y * 10000 + m * 100 + d : ℕ) : ℤ)
      else none
    else none
  | _ => none

/-- Value of an unsigned decimal string (`"123"` or `"123.45"`), `none` when
it is not one. -/
def parseUnsigned (cs : List Char) : Option ℚ :=
  match cs.splitOn '.' with
  | [intPart] =>
    if intPart ≠ [] ∧ intPart.all Char.isDigit then some (digitsVal intPart) else none
  | [intPart, fracPart] =>
    if intPart ≠ [] ∧ fracPart ≠ [] ∧ intPart.all Char.isDigit ∧ fracPart.all Char.isDigit then
      some ((digitsVal intPart : ℚ) + (digitsVal fracPart : ℚ) / (10 : ℚ) ^ fracPart.length)
    else none
  | _ => none

/-- Models `pd.to_numeric` on a string: a decimal numeral with an optional
leading minus sign, or `none` when the string is not numeric. -/
def parseNumStr (s : String) : Option ℚ :=
  match s.data with
  | '-' :: rest => (parseUnsigned rest).map (fun q => -q)
  | cs => parseUnsigned cs

/-- Models `pd.to_datetime(col, errors='coerce')` on one cell: datetimes pass
through, strings are parsed (unparseable ones coerce to `NaT`), integer
numerics are epoch offsets, anything else coerces to `NaT`. -/
def toDatetime : Value → Value
  | Value.vDate d => Value.vDate d
  | Value.vStr s =>
    match parseDateISO s with
    | some d => Value.vDate d
    | none => Value.vNull
  | Value.vNum q => if q.den = 1 then Value.vDate q.num else Value.vNull
  | Value.vNull => Value.vNull

/-- Models `pd.to_numeric(col, errors='coerce')` on one cell: numerics pass
through, numeric strings are parsed, anything else coerces to `NaN`. -/
def toNumeric : Value → Value
  | Value.vNum q => Value.vNum q
  | Value.vStr s =>
    match parseNumStr s with
    | some q => Value.vNum q
    | none => Value.vNull
  | Value.vDate _ => Value.vNull
  | Value.vNull => Value.vNull

/-- One row after the two column coercions of the upload block
(`df['date'] = pd.to_datetime(df['date'], ...)` then
`df['sales'] = pd.to_numeric(df['sales'], ...)`). -/
def coerceRow (r : Row) : Row :=
  let r1 := r.set "date" (toDatetime (r.get "date"))
  r1.set "sales" (toNumeric (r1.get "sales"))

/-- Whether `dropna(subset=['date', 'sales'])` keeps the (already coerced)
row: both the date and the sales cell are non-null. -/
def rowValid (r : Row) : Bool :=
  (match r.get "date" with | Value.vDate _ => true | _ => false) &&
  (match r.get "sales" with | Value.vNum _ => true | _ => false)

/-- The failures of the upload-normalization block: the missing-required-column
error message and the no-valid-data-after-cleaning error message. -/
inductive NormError where
  | schemaError (missing : List String)
  | emptyDatasetError
  deriving DecidableEq, Repr

/-- `missing_req = [c for c in ['date', 'sales'] if c not in df.columns]`
(line 42). -/
def requiredMissing (t : Table) : List String :=
  ["date", "sales"].filter (fun c => ¬ c ∈ t.cols)

/-- The rows surviving the coercions and `dropna(subset=['date', 'sales'])`
(lines 47-49). -/
def keptRows (t : Table) : List Row :=
  (t.rows.map coerceRow).filter (fun r => rowValid r)

/-- The upload-normalization block of `app.py` (lines 41-54): check that the
required columns `date` and `sales` are present, coerce the two columns with
`errors='coerce'`, drop rows where either coercion failed, and fail when no
row survives.  A failure makes the app fall back to demo data. -/
def normalize (t : Table) : Except NormError Table :=
  if requiredMissing t ≠ [] then Except.error (NormError.schemaError (requiredMissing t))
  else if keptRows t = [] then Except.error NormError.emptyDatasetError
  else Except.ok { cols := t.cols, rows := keptRows t }

end FairSquare

namespace FairSquare

/-- Insert a date into a strictly ascending list of dates, keeping it strictly
ascending (duplicates are merged). -/
def insertDate (d : ℤ) : List ℤ → List ℤ
  | [] => [d]
  | e :: es =>
    if d < e then d :: e :: es
    else if d = e then e :: es
    else e :: insertDate d es

/-- The distinct values of a list, in ascending order — the group keys of a
pandas `groupby`, which sorts keys ascending. -/
def distinctSorted (l : List ℤ) : List ℤ := l.foldr insertDate []

/-- The date key of a canonical row (its coerced `date` cell). -/
def rowDate (r : Row) : ℤ :=
  match r.get "date" with
  | Value.vDate d => d
  | _ => 0

/-- The sales amount of a canonical row (its coerced `sales` cell). -/
def rowSales (r : Row) : ℚ :=
  match r.get "sales" with
  | Value.vNum q => q
  | _ => 0

/-- The daily series `df.groupby("date")["sales"].sum()` of `app.py` line 157:
one row per distinct date in ascending key order, carrying the sum of `sales`
over the rows of that date. -/
def aggregateDaily (t : Table) : List (ℤ × ℚ) :=
  (distinctSorted (t.rows.map rowDate)).map
    (fun d => (d, ((t.rows.filter (fun r => rowDate r = d)).map rowSales).sum))

/-- The Sales Forecast page (lines 154-162): when the table has fewer than 30
rows only a warning is shown and no model is fit; otherwise the daily series is
built and Prophet is fit on it.  The value is the series the model is fit on,
`none` when the guard rejects the table. -/
def salesForecastSeries (t : Table) : Option (List (ℤ × ℚ)) :=
  if t.rows.length < 30 then none else some (aggregateDaily t)

/-- The Loan Forecaster payment (lines 136-139): `monthly_rate = rate / 12`,
`payment = amount * (monthly_rate * (1 + monthly_rate)^term) /
((1 + monthly_rate)^term - 1)`.  `rate` is the decimal annual rate (the slider
percentage already divided by 100).  `none` models Python's
`ZeroDivisionError` when the denominator is zero. -/
def annuityPayment (amount rate : ℚ) (term : ℕ) : Option ℚ :=
  if (1 + rate / 12) ^ term - 1 = 0 then none
  else some (amount * ((rate / 12) * (1 + rate / 12) ^ term) / ((1 + rate / 12) ^ term - 1))

/-- Binomial coefficient via factorials (exact: the division is exact). -/
def binomCoef (n k : ℕ) : ℕ := n.factorial / (k.factorial * (n - k).factorial)

/-- Numerator (out of `2^n`) of the two-sided exact binomial p-value with null
probability `1/2`: the sum of `C(n, k)` over the outcomes `k < bound` whose
probability does not exceed that of the observed count `kObs`. -/
def pValueNumBelow (n kObs : ℕ) : ℕ → ℕ
  | 0 => 0
  | k + 1 =>
    pValueNumBelow n kObs k + (if binomCoef n k ≤ binomCoef n kObs then binomCoef n k else 0)

/-- Modelled from the library call in line 192: the two-sided exact binomial
test `scipy.stats.binomtest(variant, control + variant, 0.5).pvalue` (the
`scipy` implementation is not part of this repository; the definition follows
its documented two-sided method: sum the probabilities of all outcomes no more
likely than the observed one).  Observed successes are `variant`, trials are
`control + variant`, null probability `1/2`. -/
def pValue (control variant : ℕ) : ℚ :=
  let n := control + variant
  (pValueNumBelow n variant (n + 1) : ℚ) / 2 ^ n

/-- Line 193: the result is displayed as significant exactly when the p-value
is below the fixed threshold `0.05`. -/
def isSignificant (control variant : ℕ) : Bool :=
  decide (pValue control variant < 1 / 20)

/-- The six canonical column names of the spec's data model. -/
def canonicalCols : List String :=
  ["date", "sales", "product", "channel", "customer_type", "city"]

/-- The optional categorical columns of the spec's data model. -/
def optionalCols : List String := ["product", "channel", "customer_type", "city"]

end FairSquare

namespace FairSquare

/-! ## Concrete tables used as witnesses and counterexamples -/

/-- An upload in the retail shape of the spec: `date` and `total_amount`. -/
def exTA : Table :=
  { cols := ["date", "total_amount"],
    rows := [[("date", Value.vStr "2024-01-01"), ("total_amount", Value.vStr "100")]] }

/-- An upload with a negative sales value and an extra non-canonical column. -/
def exNeg : Table :=
  { cols := ["date", "sales", "note"],
    rows := [[("date", Value.vStr "2024-01-01"),
              ("sales", Value.vStr "-5"),
              ("note", Value.vStr "x")]] }

/-- The table `normalize` produces from `exNeg`. -/
def exNegRes : Table :=
  { cols := ["date", "sales", "note"],
    rows := [[("date", Value.vDate 20240101),
              ("sales", Value.vNum (-5)),
              ("note", Value.vStr "x")]] }

/-- An upload with one good row, one bad-date row and one bad-sales row. -/
def exMix : Table :=
  { cols := ["date", "sales"],
    rows := [[("date", Value.vStr "2024-01-01"), ("sales", Value.vStr "7")],
             [("date", Value.vStr "notadate"), ("sales", Value.vStr "8")],
             [("date", Value.vStr "2024-01-02"), ("sales", Value.vStr "oops")]] }

/-- A table with 30 rows that all carry the same date. -/
def exDup : Table :=
  { cols := ["date", "sales"],
    rows := List.replicate 30 [("date", Value.vDate 20240101), ("sales", Value.vNum 1)] }

/-- A small canonical table with two dates. -/
def exDaily : Table :=
  { cols := ["date", "sales"],
    rows := [[("date", Value.vDate 20240102), ("sales", Value.vNum 3)],
             [("date", Value.vDate 20240101), ("sales", Value.vNum 4)],
             [("date", Value.vDate 20240102), ("sales", Value.vNum 5)]] }

/-! ## Row access and update -/

theorem Row.get_eq_null_of_hasCol_false {r : Row} {c : String}
    (h : r.hasCol c = false) : r.get c = Value.vNull := by
  induction r with
  | nil => rfl
  | cons p r ih =>
    simp only [Row.hasCol, Bool.or_eq_false_iff, decide_eq_false_iff_not] at h
    simp only [Row.get, if_neg h.1]
    exact ih h.2

theorem Row.hasCol_set (r : Row) (c' : String) (v : Value) (c : String) :
    (r.set c' v).hasCol c = r.hasCol c := by
  induction r with
  | nil => rfl
  | cons p r ih =>
    by_cases hp : p.1 = c'
    · simp [Row.set, Row.hasCol, hp, ih]
    · simp [Row.set, Row.hasCol, hp, ih]

theorem Row.get_set_ne (r : Row) {c c' : String} (v : Value) (h : c ≠ c') :
    (r.set c v).get c' = r.get c' := by
  induction r with
  | nil => rfl
  | cons p r ih =>
    by_cases hp : p.1 = c
    · simp [Row.set, Row.get, hp, h, ih]
    · simp [Row.set, Row.get, hp, ih]

theorem Row.get_set_self (r : Row) (c : String) (v : Value) :
    (r.set c v).get c = if r.hasCol c then v else Value.vNull := by
  induction r with
  | nil => rfl
  | cons p r ih =>
    by_cases hp : p.1 = c
    · simp [Row.set, Row.get, Row.hasCol, hp]
    · simp [Row.set, Row.get, Row.hasCol, hp, ih]

theorem Row.set_set_self (r : Row) (c : String) (v w : Value) :
    (r.set c v).set c w = r.set c w := by
  induction r with
  | nil => rfl
  | cons p r ih =>
    by_cases hp : p.1 = c
    · simp [Row.set, hp, ih]
    · simp [Row.set, hp, ih]

theorem Row.set_comm (r : Row) {c c' : String} (v w : Value) (h : c ≠ c') :
    (r.set c v).set c' w = (r.set c' w).set c v := by
  induction r with
  | nil => rfl
  | cons p r ih =>
    by_cases hp : p.1 = c
    · have hp' : p.1 ≠ c' := by rw [hp]; exact h
      simp [Row.set, hp, hp', h, Ne.symm h, ih]
    · by_cases hp' : p.1 = c'
      · have hs : c' ≠ c := Ne.symm h
        simp [Row.set, hp, hp', hs, ih]
      · simp [Row.set, hp, hp', ih]

/-! ## The column coercions -/

theorem toDatetime_idem (v : Value) : toDatetime (toDatetime v) = toDatetime v := by
  cases v with
  | vNum q => by_cases h : q.den = 1 <;> simp [toDatetime, h]
  | vStr s => cases h : parseDateISO s <;> simp [toDatetime, h]
  | _ => rfl

theorem toNumeric_idem (v : Value) : toNumeric (toNumeric v) = toNumeric v := by
  cases v with
  | vStr s => cases h : parseNumStr s <;> simp [toNumeric, h]
  | _ => rfl

theorem coerceRow_get_date (r : Row) :
    (coerceRow r).get "date" = toDatetime (r.get "date") := by
  unfold coerceRow
  rw [Row.get_set_ne _ _ (by decide), Row.get_set_self]
  by_cases h : r.hasCol "date"
  · simp [h]
  · simp only [h, if_neg]
    rw [Row.get_eq_null_of_hasCol_false (by simp [h])]
    simp [toDatetime]

theorem coerceRow_get_sales (r : Row) :
    (coerceRow r).get "sales" = toNumeric (r.get "sales") := by
  unfold coerceRow
  rw [Row.get_set_self, Row.hasCol_set, Row.get_set_ne _ _ (by decide)]
  by_cases h : r.hasCol "sales"
  · simp [h]
  · simp only [h, if_neg]
    rw [Row.get_eq_null_of_hasCol_false (by simp [h])]
    simp [toNumeric]

theorem coerceRow_idem (r : Row) : coerceRow (coerceRow r) = coerceRow r := by
  have hd : (coerceRow r).get "date" = toDatetime (r.get "date") := coerceRow_get_date r
  have hs1 : ((coerceRow r).set "date" (toDatetime ((coerceRow r).get "date"))) = coerceRow r := by
    rw [hd, toDatetime_idem]
    show ((r.set "date" (toDatetime (r.get "date"))).set "sales" _).set "date" _ = _
    rw [Row.set_comm _ _ _ (by decide), Row.set_set_self]
    rfl
  show ((coerceRow r).set "date" (toDatetime ((coerceRow r).get "date"))).set "sales" _ = _
  rw [hs1, coerceRow_get_sales, toNumeric_idem]
  show (coerceRow r).set "sales" (toNumeric (r.get "sales")) = coerceRow r
  have : toNumeric (r.get "sales")
      = toNumeric ((r.set "date" (toDatetime (r.get "date"))).get "sales") := by
    rw [Row.get_set_ne _ _ (by decide)]
  rw [this]
  show ((r.set "date" _).set "sales" _).set "sales" _ = _
  rw [Row.set_set_self]
  rfl

end FairSquare

namespace FairSquare

/-! ## The normalization block -/

theorem rowValid_iff (r : Row) :
    rowValid r = true ↔
      (∃ d, r.get "date" = Value.vDate d) ∧ ∃ q, r.get "sales" = Value.vNum q := by
  unfold rowValid
  cases h1 : r.get "date" <;> cases h2 : r.get "sales" <;> simp

theorem requiredMissing_eq_nil {t : Table} :
    requiredMissing t = [] ↔ ("date" ∈ t.cols ∧ "sales" ∈ t.cols) := by
  simp [requiredMissing]

theorem normalize_ok_elim {t y : Table} (h : normalize t = Except.ok y) :
    ("date" ∈ t.cols ∧ "sales" ∈ t.cols) ∧ y.cols = t.cols ∧
      y.rows = keptRows t ∧ y.rows ≠ [] := by
  by_cases hm : requiredMissing t = []
  · by_cases hk : keptRows t = []
    · exfalso
      simp [normalize, hm, hk] at h
    · simp [normalize, hm, hk] at h
      subst h
      exact ⟨requiredMissing_eq_nil.mp hm, rfl, rfl, by simpa using hk⟩
  · exfalso
    simp [normalize, hm] at h

/-! ## Claims C1, C2, C5, C7 -/

/-- **C2** counterexample.  The upload with columns `date` and `total_amount`
— the second required pair of the claim — is rejected by `normalize` with a
schema error naming `sales` as missing: `total_amount` is not remapped. -/
theorem C2_counterexample :
    "date" ∈ exTA.cols ∧ "total_amount" ∈ exTA.cols ∧
      normalize exTA = Except.error (NormError.schemaError ["sales"]) :=
  ⟨by decide, by decide, rfl⟩

/-- **C2** (amended).  `normalize` fails with a schema error exactly when
`date` or `sales` is absent from the input's columns; a table whose only
amount column is `total_amount` is therefore rejected, not remapped. -/
theorem C2_schemaError_iff (t : Table) :
    (∃ m, normalize t = Except.error (NormError.schemaError m)) ↔
      ("date" ∉ t.cols ∨ "sales" ∉ t.cols) := by
  constructor
  · rintro ⟨m, h⟩
    by_contra hcon
    push_neg at hcon
    have hm : requiredMissing t = [] := requiredMissing_eq_nil.mpr ⟨hcon.1, hcon.2⟩
    by_cases hk : keptRows t = [] <;> simp [normalize, hm, hk] at h
  · intro hcon
    have hm : requiredMissing t ≠ [] := by
      rw [Ne, requiredMissing_eq_nil]
      tauto
    exact ⟨requiredMissing t, by simp [normalize, hm]⟩

/-- **C1** counterexample.  The upload `exNeg` (columns `date, sales, note`,
one row with sales `-5`) is accepted, yet its normalized form keeps the
negative sales value, keeps the non-canonical column set, and fills no
`"Unknown"` defaults — the claimed invariant fails on all three counts (the
column-set clause alone already refutes it). -/
theorem C1_counterexample :
    ¬ (∀ x y, normalize x = Except.ok y →
        (∀ r ∈ y.rows, (∃ d, r.get "date" = Value.vDate d) ∧
          ∃ q, r.get "sales" = Value.vNum q ∧ 0 ≤ q) ∧
        (∀ c, c ∈ y.cols ↔ c ∈ canonicalCols) ∧
        (∀ c ∈ optionalCols, c ∉ x.cols → ∀ r ∈ y.rows, r.get c = Value.vStr "Unknown")) := by
  intro hclaim
  have h := hclaim exNeg exNegRes rfl
  have : "product" ∈ exNegRes.cols := (h.2.1 "product").mpr (by decide)
  exact absurd this (by decide)

/-- **C1** (amended).  Every table accepted by `normalize` retains only rows
with a successfully parsed date and a numeric (possibly negative) sales value,
and its column set is exactly the upload's column set — extra columns are
retained, and absent optional columns are not added or defaulted. -/
theorem C1_retained_rows_valid (x y : Table) (h : normalize x = Except.ok y) :
    (∀ r ∈ y.rows,
      (∃ d, r.get "date" = Value.vDate d) ∧ ∃ q, r.get "sales" = Value.vNum q) ∧
      y.cols = x.cols := by
  obtain ⟨-, hcols, hrows, -⟩ := normalize_ok_elim h
  refine ⟨fun r hr => ?_, hcols⟩
  rw [hrows] at hr
  exact (rowValid_iff r).mp (List.mem_filter.mp hr).2

/-- **C1** witness: the amended invariant evaluated on the accepted upload
`exNeg`. -/
theorem C1_retained_rows_valid_witness :
    (∀ r ∈ exNegRes.rows,
      (∃ d, r.get "date" = Value.vDate d) ∧ ∃ q, r.get "sales" = Value.vNum q) ∧
      exNegRes.cols = exNeg.cols :=
  C1_retained_rows_valid exNeg exNegRes rfl

/-- **C5** counterexample.  A table of 30 transaction rows that all fall on the
same date yields a daily series of a single observation — far below 30 — yet
the Sales Forecast guard passes (it counts raw rows, not series observations)
and the model is fit. -/
theorem C5_counterexample :
    ¬ (∀ t : Table, (aggregateDaily t).length < 30 → salesForecastSeries t = none) := by
  intro hclaim
  exact absurd (hclaim exDup (by decide)) (by decide)

/-- **C5** (amended).  The Sales Forecast guard is on the raw table's row
count: for a table with fewer than 30 rows no model is fit and no projection
is produced (only a warning is shown); a series with fewer than 30
observations may still be fit when the table has at least 30 rows. -/
theorem C5_guard_on_table_rows (t : Table) (h : t.rows.length < 30) :
    salesForecastSeries t = none := by
  simp [salesForecastSeries, h]

/-- **C5** witness: the one-row table `exNeg` gets no forecast. -/
theorem C5_guard_on_table_rows_witness : salesForecastSeries exNeg = none :=
  C5_guard_on_table_rows exNeg (by decide)

/-- **C7**.  At annual rate `0` the Loan Forecaster's annuity formula has
denominator `(1 + 0/12)^term - 1 = 0`: the computation divides zero by zero
(a `ZeroDivisionError`, modelled as `none`) instead of returning the
zero-rate payment `principal / term` the specification requires. -/
theorem C7_zero_rate_is_division_by_zero :
    annuityPayment 50000 0 24 = none ∧
      annuityPayment 50000 0 24 ≠ some (50000 / 24) := by
  have h0 : annuityPayment 50000 0 24 = none := by norm_num [annuityPayment]
  exact ⟨h0, by rw [h0]; simp⟩

/-! ## Claims C3 and C9 -/

theorem map_id_of_mem {α : Type} {f : α → α} :
    ∀ {l : List α}, (∀ a ∈ l, f a = a) → l.map f = l := by
  intro l
  induction l with
  | nil => intro _; rfl
  | cons a l ih =>
    intro h
    simp only [List.map_cons, h a (List.mem_cons_self a l),
      ih (fun b hb => h b (List.mem_cons_of_mem a hb))]

/-- **C3**.  For a table passing the required-column check: an accepted
table's rows are exactly the per-row coercions that survive, each row being
dropped individually when its date or its sales value fails to coerce; when
nothing survives the result is the empty-dataset error; in particular a table
whose every sales value fails numeric coercion yields the empty-dataset
error. -/
theorem C3_rowwise_drop_and_empty (x : Table)
    (hd : "date" ∈ x.cols) (hs : "sales" ∈ x.cols) :
    (∀ y, normalize x = Except.ok y →
      y.rows = (x.rows.map coerceRow).filter (fun r => rowValid r)) ∧
    ((x.rows.map coerceRow).filter (fun r => rowValid r) = [] →
      normalize x = Except.error NormError.emptyDatasetError) ∧
    ((∀ r ∈ x.rows, toNumeric (r.get "sales") = Value.vNull) →
      normalize x = Except.error NormError.emptyDatasetError) := by
  have hm : requiredMissing x = [] := requiredMissing_eq_nil.mpr ⟨hd, hs⟩
  refine ⟨fun y hy => (normalize_ok_elim hy).2.2.1, fun hk => ?_, fun hnn => ?_⟩
  · have hk' : keptRows x = [] := hk
    simp [normalize, hm, hk']
  · have hk : keptRows x = [] := by
      unfold keptRows
      rw [List.filter_eq_nil_iff]
      intro r hr
      obtain ⟨r0, hr0, rfl⟩ := List.mem_map.mp hr
      intro hvalid
      obtain ⟨-, q, hq⟩ := (rowValid_iff _).mp hvalid
      rw [coerceRow_get_sales, hnn r0 hr0] at hq
      exact Value.noConfusion hq
    simp [normalize, hm, hk]

/-- **C3** witness: the mixed table `exMix` (one good row, one bad date, one
bad sales value) satisfies the conclusion; its normalization keeps exactly the
coercion-surviving rows. -/
theorem C3_rowwise_drop_and_empty_witness :
    (∀ y, normalize exMix = Except.ok y →
      y.rows = (exMix.rows.map coerceRow).filter (fun r => rowValid r)) ∧
    ((exMix.rows.map coerceRow).filter (fun r => rowValid r) = [] →
      normalize exMix = Except.error NormError.emptyDatasetError) ∧
    ((∀ r ∈ exMix.rows, toNumeric (r.get "sales") = Value.vNull) →
      normalize exMix = Except.error NormError.emptyDatasetError) :=
  C3_rowwise_drop_and_empty exMix (by decide) (by decide)

/-- **C9**.  `normalize` is idempotent on its own output: a table accepted by
`normalize` normalizes again to itself, since the coercions fix already-coerced
cells and no surviving row is dropped a second time. -/
theorem C9_normalize_idempotent (x y : Table) (h : normalize x = Except.ok y) :
    normalize y = Except.ok y := by
  obtain ⟨⟨hd, hs⟩, hcols, hrows, hne⟩ := normalize_ok_elim h
  have hm : requiredMissing y = [] :=
    requiredMissing_eq_nil.mpr ⟨hcols ▸ hd, hcols ▸ hs⟩
  have hall : ∀ r ∈ y.rows, coerceRow r = r ∧ rowValid r = true := by
    intro r hr
    rw [hrows] at hr
    have hr' := List.mem_filter.mp hr
    obtain ⟨r0, -, rfl⟩ := List.mem_map.mp hr'.1
    exact ⟨coerceRow_idem r0, hr'.2⟩
  have hkept : keptRows y = y.rows := by
    unfold keptRows
    rw [map_id_of_mem (fun r hr => (hall r hr).1),
      List.filter_eq_self.mpr (fun r hr => (hall r hr).2)]
  simp [normalize, hm, hkept, hne]

/-- **C9** witness: re-normalizing the canonical table produced from `exNeg`
returns it unchanged. -/
theorem C9_normalize_idempotent_witness :
    normalize exNegRes = Except.ok exNegRes :=
  C9_normalize_idempotent exNeg exNegRes rfl

/-! ## Claim C4: daily aggregation -/

theorem insertDate_cons (d e : ℤ) (es : List ℤ) :
    insertDate d (e :: es) =
      if d < e then d :: e :: es else if d = e then e :: es else e :: insertDate d es := rfl

theorem mem_insertDate {a d : ℤ} : ∀ {l : List ℤ}, a ∈ insertDate d l ↔ a = d ∨ a ∈ l := by
  intro l
  induction l with
  | nil => simp [insertDate]
  | cons e es ih =>
    rw [insertDate_cons]
    by_cases h1 : d < e
    · rw [if_pos h1]
      simp only [List.mem_cons]
    · rw [if_neg h1]
      by_cases h2 : d = e
      · rw [if_pos h2]
        subst h2
        simp only [List.mem_cons]
        tauto
      · rw [if_neg h2]
        simp only [List.mem_cons, ih]
        tauto

theorem pairwise_insertDate {d : ℤ} :
    ∀ {l : List ℤ}, List.Pairwise (· < ·) l → List.Pairwise (· < ·) (insertDate d l) := by
  intro l
  induction l with
  | nil => intro _; simp [insertDate]
  | cons e es ih =>
    intro h
    obtain ⟨he, hes⟩ := List.pairwise_cons.mp h
    rw [insertDate_cons]
    by_cases h1 : d < e
    · rw [if_pos h1]
      refine List.pairwise_cons.mpr ⟨?_, h⟩
      intro b hb
      rcases List.mem_cons.mp hb with rfl | hb'
      · exact h1
      · exact lt_trans h1 (he b hb')
    · rw [if_neg h1]
      by_cases h2 : d = e
      · rw [if_pos h2]
        exact h
      · rw [if_neg h2]
        refine List.pairwise_cons.mpr ⟨?_, ih hes⟩
        intro b hb
        rcases mem_insertDate.mp hb with rfl | hb'
        · exact lt_of_le_of_ne (not_lt.mp h1) (Ne.symm h2)
        · exact he b hb'

theorem pairwise_distinctSorted :
    ∀ (l : List ℤ), List.Pairwise (· < ·) (distinctSorted l) := by
  intro l
  induction l with
  | nil => simp [distinctSorted]
  | cons a l ih => exact pairwise_insertDate ih

theorem mem_distinctSorted {a : ℤ} : ∀ {l : List ℤ}, a ∈ distinctSorted l ↔ a ∈ l := by
  intro l
  induction l with
  | nil => simp [distinctSorted]
  | cons b l ih =>
    rw [show distinctSorted (b :: l) = insertDate b (distinctSorted l) from rfl,
      mem_insertDate, ih, List.mem_cons]

theorem map_congr_mem {α β : Type} {f g : α → β} :
    ∀ {l : List α}, (∀ a ∈ l, f a = g a) → l.map f = l.map g := by
  intro l
  induction l with
  | nil => intro _; rfl
  | cons a l ih =>
    intro h
    simp only [List.map_cons, h a (List.mem_cons_self a l),
      ih (fun b hb => h b (List.mem_cons_of_mem a hb))]

theorem sum_map_add_distrib {α : Type} (l : List α) (f g : α → ℚ) :
    (l.map (fun a => f a + g a)).sum = (l.map f).sum + (l.map g).sum := by
  induction l with
  | nil => simp
  | cons a l ih =>
    simp only [List.map_cons, List.sum_cons, ih]
    ring

theorem sum_ite_mem (r : ℚ) (d : ℤ) :
    ∀ {ds : List ℤ}, ds.Nodup → d ∈ ds →
      (ds.map (fun e => if d = e then r else 0)).sum = r := by
  intro ds
  induction ds with
  | nil => intro _ h; cases h
  | cons e es ih =>
    intro hnd hmem
    obtain ⟨hne, hnd'⟩ := List.nodup_cons.mp hnd
    rcases List.mem_cons.mp hmem with rfl | hm
    · have hz : (es.map (fun e => if d = e then r else 0)).sum = 0 := by
        apply List.sum_eq_zero
        intro x hx
        obtain ⟨b, hb, rfl⟩ := List.mem_map.mp hx
        have hdb : d ≠ b := by
          rintro rfl
          exact hne hb
        show (if d = b then r else 0) = 0
        rw [if_neg hdb]
      simp [hz]
    · have hde : d ≠ e := by
        rintro rfl
        exact hne hm
      simp [hde, ih hnd' hm]

theorem sum_fiberwise :
    ∀ (rows : List Row) (ds : List ℤ), ds.Nodup → (∀ r ∈ rows, rowDate r ∈ ds) →
      (ds.map (fun d => ((rows.filter (fun r => rowDate r = d)).map rowSales).sum)).sum
        = (rows.map rowSales).sum := by
  intro rows
  induction rows with
  | nil => intro ds _ _; simp
  | cons r rs ih =>
    intro ds hnd hmem
    have hr : rowDate r ∈ ds := hmem r (List.mem_cons_self r rs)
    have hrs : ∀ x ∈ rs, rowDate x ∈ ds := fun x hx => hmem x (List.mem_cons_of_mem r hx)
    have hsplit : ∀ d : ℤ,
        (((r :: rs).filter (fun x => rowDate x = d)).map rowSales).sum
          = (if rowDate r = d then rowSales r else 0)
            + ((rs.filter (fun x => rowDate x = d)).map rowSales).sum := by
      intro d
      by_cases hd : rowDate r = d
      · simp [List.filter_cons, hd]
      · simp [List.filter_cons, hd]
    rw [map_congr_mem (fun d _ => hsplit d), sum_map_add_distrib,
      sum_ite_mem (rowSales r) (rowDate r) hnd hr, ih ds hnd hrs]
    simp

theorem aggregateDaily_fst (t : Table) :
    (aggregateDaily t).map Prod.fst = distinctSorted (t.rows.map rowDate) := by
  unfold aggregateDaily
  rw [List.map_map]
  exact map_id_of_mem (fun d _ => rfl)

/-- **C4**.  On a canonical table the daily aggregation has one row per
distinct date, with the dates strictly increasing (hence duplicate-free), and
the total of its `total_sales` values equals the total of the table's `sales`
column. -/
theorem C4_daily_aggregation (t : Table) (_hvalid : ∀ r ∈ t.rows, rowValid r = true) :
    List.Chain' (· < ·) ((aggregateDaily t).map Prod.fst) ∧
    (∀ d, d ∈ (aggregateDaily t).map Prod.fst ↔ d ∈ t.rows.map rowDate) ∧
    ((aggregateDaily t).map Prod.snd).sum = (t.rows.map rowSales).sum := by
  refine ⟨?_, ?_, ?_⟩
  · rw [aggregateDaily_fst, List.chain'_iff_pairwise]
    exact pairwise_distinctSorted _
  · intro d
    rw [aggregateDaily_fst]
    exact mem_distinctSorted
  · unfold aggregateDaily
    rw [List.map_map]
    have hnd : (distinctSorted (t.rows.map rowDate)).Nodup :=
      (pairwise_distinctSorted _).imp (fun h => ne_of_lt h)
    have hmem : ∀ r ∈ t.rows, rowDate r ∈ distinctSorted (t.rows.map rowDate) :=
      fun r hr => mem_distinctSorted.mpr (List.mem_map_of_mem rowDate hr)
    exact sum_fiberwise t.rows _ hnd hmem

/-- **C4** witness: the aggregation invariants evaluated on the three-row,
two-date canonical table `exDaily`. -/
theorem C4_daily_aggregation_witness :
    List.Chain' (· < ·) ((aggregateDaily exDaily).map Prod.fst) ∧
    (∀ d, d ∈ (aggregateDaily exDaily).map Prod.fst ↔ d ∈ exDaily.rows.map rowDate) ∧
    ((aggregateDaily exDaily).map Prod.snd).sum = (exDaily.rows.map rowSales).sum :=
  C4_daily_aggregation exDaily (by decide)

/-! ## Claim C8: the A/B significance test -/

set_option maxRecDepth 2000 in
/-- **C8**.  The A/B page computes the two-sided exact binomial p-value of the
observed successes (`variant`) against null probability `1/2` over
`control + variant` trials; for the page's default inputs `(100, 130)` the
p-value lies strictly between `0` and `1`, and in all cases the result is
flagged significant exactly when the p-value is below `0.05`. -/
theorem C8_ab_test :
    (0 < pValue 100 130 ∧ pValue 100 130 < 1) ∧
    ∀ control variant, isSignificant control variant = true ↔
      pValue control variant < 1 / 20 := by
  have hpos : 0 < pValueNumBelow 230 130 231 := by decide
  have hlt : pValueNumBelow 230 130 231 < 2 ^ 230 := by decide
  have h1 : pValue 100 130 = (pValueNumBelow 230 130 231 : ℚ) / 2 ^ 230 := by
    norm_num [pValue]
  refine ⟨⟨?_, ?_⟩, ?_⟩
  · rw [h1]
    apply div_pos _ (by positivity)
    exact_mod_cast hpos
  · rw [h1, div_lt_one (by positivity)]
    exact_mod_cast hlt
  · intro c v
    simp [isSignificant]

/-! ## Claim C10: the payment is strictly increasing in the rate -/

theorem geom_sum_pos_of_pos {u : ℚ} {T : ℕ} (hu : 0 < u) (hT : 1 ≤ T) :
    0 < ∑ k ∈ Finset.range T, u ^ k :=
  Finset.sum_pos (fun k _ => pow_pos hu k) (Finset.nonempty_range_iff.mpr (by omega))

theorem annuity_den_pos {r : ℚ} {T : ℕ} (hr : 0 < r) (hT : 1 ≤ T) :
    0 < (1 + r / 12) ^ T - 1 := by
  have h1 : 1 < (1 + r / 12) ^ T := one_lt_pow₀ (by linarith) (by omega)
  linarith

theorem annuityPayment_eq_some {P r : ℚ} {T : ℕ} (hr : 0 < r) (hT : 1 ≤ T) :
    annuityPayment P r T
      = some (P * ((r / 12) * (1 + r / 12) ^ T) / ((1 + r / 12) ^ T - 1)) := by
  unfold annuityPayment
  rw [if_neg (ne_of_gt (annuity_den_pos hr hT))]

theorem annuity_payment_as_ratio {u : ℚ} (T : ℕ) (hu : 1 < u) (hT : 1 ≤ T) :
    (u - 1) * u ^ T / (u ^ T - 1) = u ^ T / ∑ k ∈ Finset.range T, u ^ k := by
  have hS : 0 < ∑ k ∈ Finset.range T, u ^ k := geom_sum_pos_of_pos (by linarith) hT
  have h1 : u - 1 ≠ 0 := sub_ne_zero.mpr (ne_of_gt hu)
  have hden : u ^ T - 1 = (∑ k ∈ Finset.range T, u ^ k) * (u - 1) := (geom_sum_mul u T).symm
  rw [hden]
  rw [mul_comm (∑ k ∈ Finset.range T, u ^ k) (u - 1), mul_div_mul_left _ _ h1]

theorem annuity_ratio_lt {u v : ℚ} {T : ℕ} (hu : 1 < u) (huv : u < v) (hT : 1 ≤ T) :
    u ^ T / ∑ k ∈ Finset.range T, u ^ k < v ^ T / ∑ k ∈ Finset.range T, v ^ k := by
  have hu0 : (0:ℚ) < u := by linarith
  have hv0 : (0:ℚ) < v := by linarith
  have hSu : 0 < ∑ k ∈ Finset.range T, u ^ k := geom_sum_pos_of_pos hu0 hT
  have hSv : 0 < ∑ k ∈ Finset.range T, v ^ k := geom_sum_pos_of_pos hv0 hT
  rw [div_lt_div_iff₀ hSu hSv, Finset.mul_sum, Finset.mul_sum]
  apply Finset.sum_lt_sum_of_nonempty (Finset.nonempty_range_iff.mpr (by omega))
  intro k hk
  have hkT : k < T := Finset.mem_range.mp hk
  have hsu : u ^ T = u ^ k * u ^ (T - k) := by
    rw [← pow_add]
    congr 1
    omega
  have hsv : v ^ T = v ^ k * v ^ (T - k) := by
    rw [← pow_add]
    congr 1
    omega
  rw [hsu, hsv]
  have hpow : u ^ (T - k) < v ^ (T - k) :=
    pow_lt_pow_left₀ huv (le_of_lt hu0) (by omega)
  calc u ^ k * u ^ (T - k) * v ^ k
      = (u ^ k * v ^ k) * u ^ (T - k) := by ring
    _ < (u ^ k * v ^ k) * v ^ (T - k) := by
        apply mul_lt_mul_of_pos_left hpow
        positivity
    _ = v ^ k * v ^ (T - k) * u ^ k := by ring

theorem annuityPayment_lt {P r r' : ℚ} {T : ℕ} (hP : 0 < P) (hr : 0 < r)
    (hrr : r < r') (hT : 1 ≤ T) :
    P * ((r / 12) * (1 + r / 12) ^ T) / ((1 + r / 12) ^ T - 1)
      < P * ((r' / 12) * (1 + r' / 12) ^ T) / ((1 + r' / 12) ^ T - 1) := by
  have hu : (1:ℚ) < 1 + r / 12 := by linarith
  have hv : (1:ℚ) < 1 + r' / 12 := by linarith
  have e1 : P * ((r / 12) * (1 + r / 12) ^ T) / ((1 + r / 12) ^ T - 1)
      = P * ((1 + r / 12) ^ T / ∑ k ∈ Finset.range T, (1 + r / 12) ^ k) := by
    rw [mul_div_assoc,
      show (r / 12) * (1 + r / 12) ^ T / ((1 + r / 12) ^ T - 1)
        = (1 + r / 12 - 1) * (1 + r / 12) ^ T / ((1 + r / 12) ^ T - 1) by ring_nf,
      annuity_payment_as_ratio T hu hT]
  have e2 : P * ((r' / 12) * (1 + r' / 12) ^ T) / ((1 + r' / 12) ^ T - 1)
      = P * ((1 + r' / 12) ^ T / ∑ k ∈ Finset.range T, (1 + r' / 12) ^ k) := by
    rw [mul_div_assoc,
      show (r' / 12) * (1 + r' / 12) ^ T / ((1 + r' / 12) ^ T - 1)
        = (1 + r' / 12 - 1) * (1 + r' / 12) ^ T / ((1 + r' / 12) ^ T - 1) by ring_nf,
      annuity_payment_as_ratio T hv hT]
  rw [e1, e2]
  exact mul_lt_mul_of_pos_left (annuity_ratio_lt hu (by linarith) hT) hP

/-- **C10**.  For a fixed positive principal and a term of at least one month,
the annuity payment of the Loan Forecaster is strictly increasing in the
annual rate over positive rates; consequently the "bank" payment at the user's
rate plus 3 percentage points is strictly greater, and the displayed savings
`(bank_payment - payment) * term` is strictly positive. -/
theorem C10_payment_strictly_increasing (P r : ℚ) (T : ℕ)
    (hP : 0 < P) (hr : 0 < r) (hT : 1 ≤ T) :
    (∀ r' p p', r < r' → annuityPayment P r T = some p →
      annuityPayment P r' T = some p' → p < p') ∧
    ∃ p pb, annuityPayment P r T = some p ∧
      annuityPayment P (r + 3 / 100) T = some pb ∧ p < pb ∧ 0 < (pb - p) * (T : ℚ) := by
  have hmono : ∀ r' p p', r < r' → annuityPayment P r T = some p →
      annuityPayment P r' T = some p' → p < p' := by
    intro r' p p' hrr hp hp'
    rw [annuityPayment_eq_some hr hT] at hp
    rw [annuityPayment_eq_some (lt_trans hr hrr) hT] at hp'
    obtain rfl := Option.some.inj hp
    obtain rfl := Option.some.inj hp'
    exact annuityPayment_lt hP hr hrr hT
  refine ⟨hmono, _, _, annuityPayment_eq_some hr hT,
    annuityPayment_eq_some (by linarith) hT, ?_, ?_⟩
  · exact annuityPayment_lt hP hr (by linarith) hT
  · have hp := annuityPayment_lt hP hr (show r < r + 3 / 100 by linarith) hT
    have hT0 : (0:ℚ) < (T : ℚ) := by
      exact_mod_cast (show 0 < T by omega)
    exact mul_pos (sub_pos.mpr hp) hT0

/-- **C10** witness: the monotonicity and bank-comparison facts instantiated
at the Loan Forecaster's default inputs (`$50000`, `12%`, 24 months). -/
theorem C10_payment_strictly_increasing_witness :
    0 < (50000:ℚ) ∧ 0 < (12/100:ℚ) ∧ 1 ≤ 24 ∧
    ((∀ r' p p', (12/100:ℚ) < r' → annuityPayment 50000 (12/100) 24 = some p →
      annuityPayment 50000 r' 24 = some p' → p < p') ∧
    ∃ p pb, annuityPayment 50000 (12/100) 24 = some p ∧
      annuityPayment 50000 (12/100 + 3/100) 24 = some pb ∧ p < pb ∧
        0 < (pb - p) * ((24 : ℕ) : ℚ)) :=
  ⟨by norm_num, by norm_num, by norm_num,
    C10_payment_strictly_increasing 50000 (12/100) 24
      (by norm_num) (by norm_num) (by norm_num)⟩
